import Mathlib

/-!
# petrescue_scraper

A shallow embedding of `scraper.go` (package `main`) and `scraperwiki/scraperwiki.go`
(package `scraperwiki`), followed by theorems about the pagination driver, the two page
extractors, the enrichment loop and the sqlite sink.

Conventions of the embedding

* `log.Fatal`, `log.Fatalf` and a runtime panic end the process; a function that can reach
  one of them returns `Except Fatal _`, and the value of `Fatal` tells which one was reached.
* The network is a function `Http` from the requested address to what `http.Get` and
  `goquery.NewDocumentFromReader` produce for it.  A parsed document is represented by the
  selections the program takes from it (goquery is a capability of the embedding, not part
  of it).
* The only unbounded loop is the one in `index`; it takes a `fuel` argument and reports
  `Outcome.running` when the fuel is used up.
* The database file is a state `Db` passed in and out.  Opening the file and querying its
  catalog are taken to succeed; a statement the database rejects ends the process
  (`log.Fatalf`) with the earlier statements in effect, as there is no transaction.
  What sqlite checks on a statement is spelled out in `Db.apply` as far as it is certain
  (existence of the table, names compared without case, number of values, text of the
  literals); the rest is the field `accepts` of the store, and the general theorems hold
  for every such engine.  The examples run on `plainEngine`.
* Go strings are Lean strings (sequences of code points); a Go `int` is a Lean `Int` (the
  program does no arithmetic on stored values, and the page counter is a `Nat`).
-/

namespace scraperwiki

/-- Dynamic Go values stored in a `map[string]interface{}`.  `float64` carries the IEEE-754
bit pattern; `other` stands for every dynamic type that is not `string`, `int` or `float64`
(for instance `bool`, `int64`, `nil`), identified by the name of the type. -/
inductive Value where
  | str (s : String)
  | int (i : Int)
  | float64 (bits : Nat)
  | other (goType : String)
deriving DecidableEq, Repr

/-- The entries of one `map[string]interface{}`.  (The keys of a Go map are distinct;
no statement below needs it.) -/
abbrev Record := List (String × Value)

/-- Order in which the `k`-th `range` loop over a map visits the entries of that map.  Go
leaves the order unspecified; every statement below is for an arbitrary `MapRange` that
visits each entry once (`IsRange`). -/
abbrev MapRange := Nat → Record → Record

/-- A `MapRange` visits every entry of the map exactly once. -/
def IsRange (rng : MapRange) : Prop := ∀ (k : Nat) (m : Record), List.Perm (rng k m) m

/-- Column types written by `createTable`. -/
inductive SqlType where
  | text
  | integer
  | real
deriving DecidableEq, Repr

/-- A literal as written by `SaveSqlite`: `q s` is `fmt.Sprintf("%q", s)`, `d i` is
`fmt.Sprintf("%d", i)` and `f x` is `fmt.Sprintf("%f", x)`. -/
inductive Literal where
  | q (s : String)
  | d (i : Int)
  | f (bits : Nat)
deriving DecidableEq, Repr

/-- The three statements the package sends to the database.
`createTable n cols` is `create table n (c1 t1, c2 t2, ...);`,
`deleteFrom n` is `delete from n;` and
`insertInto n cls vls` is `insert into n(cls...) values (vls...);`. -/
inductive Stmt where
  | createTable (n : String) (cols : List (String × SqlType))
  | deleteFrom (n : String)
  | insertInto (n : String) (cls : List String) (vls : List Literal)
deriving DecidableEq, Repr

end scraperwiki

namespace scraper

/-- Ways in which the process ends abnormally. -/
inductive Fatal where
  /-- `FatalIfError(err)` after `http.Get`. -/
  | getError
  /-- `log.Fatalf("status code error: ...")`. -/
  | statusCode (code : Nat)
  /-- `FatalIfError(err)` after `goquery.NewDocumentFromReader`. -/
  | documentError
  /-- Runtime panic of `d[0]` on an empty slice. -/
  | indexOutOfRange
  /-- `log.Fatalf("unknown type")` in `createTable`. -/
  | unknownType
  /-- `log.Fatalf` after a failed `db.Exec`; carries the statements that were submitted. -/
  | execError (stmt : List scraperwiki.Stmt)
deriving DecidableEq, Repr

deriving instance DecidableEq for Except

/-- Result of a computation that contains the unbounded loop of `index`. -/
inductive Outcome (α : Type) where
  | done (a : α)
  | fatal (e : Fatal)
  | running
deriving DecidableEq, Repr

/-- The struct `animal`. -/
structure animal where
  URL : String
  Name : String
  Breed : String
deriving DecidableEq, Repr

/-- Go's `unicode.IsSpace`. -/
def isSpace (c : Char) : Bool :=
  c.toNat == 0x09 || c.toNat == 0x0A || c.toNat == 0x0B || c.toNat == 0x0C ||
  c.toNat == 0x0D || c.toNat == 0x20 || c.toNat == 0x85 || c.toNat == 0xA0 ||
  c.toNat == 0x1680 || (0x2000 ≤ c.toNat && c.toNat ≤ 0x200A) || c.toNat == 0x2028 ||
  c.toNat == 0x2029 || c.toNat == 0x202F || c.toNat == 0x205F || c.toNat == 0x3000

/-- Go's `strings.TrimSpace`: the string without its leading and trailing white space. -/
def TrimSpace (s : String) : String :=
  ⟨((s.data.dropWhile isSpace).reverse.dropWhile isSpace).reverse⟩

/-- One `article.cards-listings-preview` element under `div.search-results`, given by the
two selections `scrapeSearchResultsPage` takes inside it: the text content of every
element matching `header h3`, and for every element matching
`a.cards-listings-preview__content` its `href` attribute when it has one; both in document
order. -/
structure Card where
  headerH3 : List String
  anchors : List (Option String)
deriving DecidableEq, Repr

/-- A parsed document, given by the selections the program takes from it: the listing
cards, and the text content of every element matching `h3.pet-listing__content__breed`;
both in document order. -/
structure Document where
  cards : List Card
  breedH3 : List String
deriving DecidableEq, Repr

/-- What came back for a request that `http.Get` completed: the status code, and the
document `goquery.NewDocumentFromReader` builds from the body (`none` when it returns an
error). -/
structure Response where
  StatusCode : Nat
  Body : Option Document
deriving DecidableEq, Repr

/-- The network: the response to a GET of an address, `none` when `http.Get` returns an
error. -/
abbrev Http := String → Option Response

/-- The method `Text` of a goquery selection: the combined text of the matched elements. -/
def Text (nodes : List String) : String := String.join nodes

/-- The method `First` of a goquery selection. -/
def First {α : Type} (nodes : List α) : List α := nodes.take 1

/-- The call `Attr("href")` on a goquery selection with the second result dropped: the
attribute of the first matched element, or the empty string. -/
def Attr (nodes : List (Option String)) : String :=
  match nodes with
  | [] => ""
  | node :: _ => node.getD ""

/-- The address `index` builds for page `p`: `baseURI()` with `page` set to
`strconv.Itoa(p)` and the query re-encoded by `url.Values.Encode` (keys sorted, brackets
escaped). -/
def pageURL (p : Nat) : String :=
  "https://www.petrescue.com.au/listings/search/dogs?interstate=true&page=" ++ toString p ++
    "&per_page=60&postcode%5Bdistance%5D=50&postcode%5Bpostcode%5D=2256&state_id%5B%5D=1"

/-- The loop of `index`.  `p` is the page counter, `animals` the accumulator and `calls`
the addresses handed to the extractor so far. -/
def indexLoop (scrapeSearchResultsPage : String → Except Fatal (List animal)) :
    Nat → Nat → List animal → List String → List String × Outcome (List animal)
  | 0, _, _, calls => (calls, .running)
  | fuel + 1, p, animals, calls =>
    let u := pageURL p
    match scrapeSearchResultsPage u with
    | .error e => (calls ++ [u], .fatal e)
    | .ok as =>
      if as.length = 0 then (calls ++ [u], .done animals)
      else indexLoop scrapeSearchResultsPage fuel (p + 1) (animals ++ as) (calls ++ [u])

/-- The function `index`, over the listing-page extractor it calls.  Returns the addresses
the extractor was called with, in order, and the outcome. -/
def index (scrapeSearchResultsPage : String → Except Fatal (List animal)) (fuel : Nat) :
    List String × Outcome (List animal) :=
  indexLoop scrapeSearchResultsPage fuel 1 [] []

/-- The body of the `Each` callback of `scrapeSearchResultsPage`. -/
def cardAnimal (s : Card) : animal :=
  let name := TrimSpace (Text s.headerH3)
  let link := Attr s.anchors
  { URL := link, Name := name, Breed := "" }

/-- The `Find(...).Each(...)` statement of `scrapeSearchResultsPage`: every card appends
one animal to the result. -/
def extractAnimals (doc : Document) : List animal :=
  doc.cards.foldl (fun animals s => animals ++ [cardAnimal s]) []

/-- The function `scrapeSearchResultsPage`. -/
def scrapeSearchResultsPage (http : Http) (url : String) : Except Fatal (List animal) :=
  match http url with
  | none => .error .getError
  | some res =>
    if res.StatusCode ≠ 200 then .error (.statusCode res.StatusCode)
    else
      match res.Body with
      | none => .error .documentError
      | some doc => .ok (extractAnimals doc)

/-- The last two statements of `scrape`: the breed is the trimmed text of the first
element matching the breed heading. -/
def setBreed (doc : Document) (a : animal) : animal :=
  let e := First doc.breedH3
  { a with Breed := TrimSpace (Text e) }

/-- The function `scrape`; the animal it mutates is returned. -/
def scrape (http : Http) (a : animal) : Except Fatal animal :=
  match http a.URL with
  | none => .error .getError
  | some res =>
    if res.StatusCode ≠ 200 then .error (.statusCode res.StatusCode)
    else
      match res.Body with
      | none => .error .documentError
      | some doc => .ok (setBreed doc a)

/-- The loop `for i, a := range animals { scrape(&a); animals[i] = a }` of `main`.  The
first list holds the elements still to be visited, `i` is the index of its head, `animals`
is the slice being written and `fetched` the addresses requested so far. -/
def enrichLoop (http : Http) :
    List animal → Nat → List animal → List String → List String × Except Fatal (List animal)
  | [], _, animals, fetched => (fetched, .ok animals)
  | a :: rest, i, animals, fetched =>
    match scrape http a with
    | .error e => (fetched ++ [a.URL], .error e)
    | .ok a' => enrichLoop http rest (i + 1) (animals.set i a') (fetched ++ [a.URL])

/-- The enrichment loop of `main`, started on the whole slice. -/
def enrich (http : Http) (animals : List animal) : List String × Except Fatal (List animal) :=
  enrichLoop http animals 0 animals []

end scraper

namespace scraperwiki

open scraper (Fatal)

/-- One table of the database file: its name as written when it was created (what the
catalog `sqlite_master` holds), its declared columns and its rows, oldest first.  A row
holds, for every column named by the insert, the literal that was written. -/
structure Table where
  name : String
  cols : List (String × SqlType)
  rows : List (List (String × Literal))
deriving DecidableEq, Repr

/-- The way sqlite compares names: without regard to the case of ASCII letters. -/
def foldName (s : String) : String := ⟨s.data.map Char.toLower⟩

/-- Whether sqlite reads the text `SaveSqlite` writes for a literal as one value.
`%q` writes a string between double quotes and puts a backslash before a double quote
inside it, which does not escape it for sqlite: the text is read as a value exactly when
the string has no double quote.  `%d` always writes a number.  `%f` writes `NaN`, `+Inf`
or `-Inf` for a float whose exponent bits are all set, and a decimal number otherwise. -/
def Literal.token : Literal → Bool
  | .q s => s.data.all (fun c => c.toNat != 34)
  | .d _ => true
  | .f bits => (bits / 2 ^ 52) % 2 ^ 11 != 2047

/-- The database file `./data.sqlite` as the package sees it.
`catalog` gives the table stored under a name, looked up under `foldName`;
`journal` lists the statements submitted through `Exec` so far, oldest first (a rejected
statement is recorded too);
`accepts` stands for every reason the engine has to reject the text of a statement that
is not spelled out in `Db.apply`: a name it does not read as a name (a keyword, an empty
name, a name with other characters than letters, digits and underscores), a reserved
table name, a column named twice in an insert, a file that cannot be written. -/
structure Db where
  catalog : String → Option Table
  journal : List Stmt
  accepts : Stmt → Bool

/-- The table a statement naming `n` works on (names are compared without case). -/
def Db.find (db : Db) (n : String) : Option Table := db.catalog (foldName n)

/-- The table whose name in the catalog is exactly `n`: the row the query of `tableExists`
selects with `name='n'`. -/
def Db.tables (db : Db) (n : String) : Option Table :=
  match db.find n with
  | some t => if t.name = n then some t else none
  | none => none

/-- The database with the table that statements naming `n` work on replaced by `t`. -/
def Db.put (db : Db) (n : String) (t : Table) : Db :=
  { db with catalog := fun m => if m = foldName n then some t else db.catalog m }

/-- Effect of one statement on the tables, `none` when the database rejects it.
Besides what `accepts` stands for: a table can be created when no table has that name
(without case), at least one column is declared and no two columns have the same name
(without case); rows can be deleted from an existing table; a row can be inserted into an
existing table when at least one column is named, there are as many values as named
columns, every named column is a column of the table (without case) and every value is
text that sqlite reads as one value. -/
def Db.apply (db : Db) (s : Stmt) : Option Db :=
  if db.accepts s = false then none
  else
    match s with
    | .createTable n cols =>
      match db.find n with
      | some _ => none
      | none =>
        if cols ≠ [] ∧ (cols.map (fun c => foldName c.1)).Nodup then
          some (db.put n { name := n, cols := cols, rows := [] })
        else none
    | .deleteFrom n =>
      match db.find n with
      | none => none
      | some t => some (db.put n { t with rows := [] })
    | .insertInto n cls vls =>
      match db.find n with
      | none => none
      | some t =>
        if cls ≠ [] ∧ cls.length = vls.length ∧
            (∀ c ∈ cls, foldName c ∈ t.cols.map (fun c => foldName c.1)) ∧
            (∀ v ∈ vls, v.token = true) then
          some (db.put n { t with rows := t.rows ++ [cls.zip vls] })
        else none

/-- The call `db.Exec(text)` where `text` holds the statements of `script` one after the
other: they run in order, each in its own implicit transaction, and the first rejected one
stops the call with an error (`false`), the earlier ones staying in effect. -/
def Db.Exec (db : Db) : List Stmt → Bool × Db
  | [] => (true, db)
  | s :: script =>
    let db1 : Db := { db with journal := db.journal ++ [s] }
    match db1.apply s with
    | none => (false, db1)
    | some db2 => db2.Exec script

/-- The function `tableExists`: the catalog holds exactly one table of that name. -/
def tableExists (db : Db) (n : String) : Bool :=
  let count := match db.tables n with
    | some _ => 1
    | none => 0
  count == 1

/-- The `range d[0]` loop of `createTable` over the entries in the order visited; `cols`
is the slice built so far. -/
def inferCols : Record → List (String × SqlType) → Except Fatal (List (String × SqlType))
  | [], cols => .ok cols
  | (kk, x) :: rest, cols =>
    match x with
    | .str _ => inferCols rest (cols ++ [(kk, .text)])
    | .int _ => inferCols rest (cols ++ [(kk, .integer)])
    | .float64 _ => inferCols rest (cols ++ [(kk, .real)])
    | .other _ => .error .unknownType

/-- The text `createTable` hands to `db.Exec`: the create-table statement followed by the
delete statement.  Indexing `d[0]` panics on an empty slice. -/
def createTableScript (rng : MapRange) (i : Nat) (d : List Record) (n : String) :
    Except Fatal (List Stmt) :=
  match d with
  | [] => .error .indexOutOfRange
  | d0 :: _ =>
    match inferCols (rng i d0) [] with
    | .error e => .error e
    | .ok cols => .ok [Stmt.createTable n cols, Stmt.deleteFrom n]

/-- The function `createTable`.  `i` numbers the `range` loop it runs. -/
def createTable (rng : MapRange) (i : Nat) (db : Db) (k : List String) (d : List Record)
    (n : String) : Except Fatal Unit × Db :=
  match createTableScript rng i d n with
  | .error e => (.error e, db)
  | .ok stmt =>
    match db.Exec stmt with
    | (false, db1) => (.error (.execError stmt), db1)
    | (true, db1) => (.ok (), db1)

/-- The inner `range e` loop of `SaveSqlite` over the entries in the order visited: every
key is appended to `cls`; a value is appended to `vls` when it is a `string`, an `int` or a
`float64` (the type switch has no default case). -/
def insertLists : Record → List String → List Literal → List String × List Literal
  | [], cls, vls => (cls, vls)
  | (kk, x) :: rest, cls, vls =>
    match x with
    | .str s => insertLists rest (cls ++ [kk]) (vls ++ [Literal.q s])
    | .int i => insertLists rest (cls ++ [kk]) (vls ++ [Literal.d i])
    | .float64 b => insertLists rest (cls ++ [kk]) (vls ++ [Literal.f b])
    | .other _ => insertLists rest (cls ++ [kk]) vls

/-- The insert statement `SaveSqlite` builds for the record `e` of the batch. -/
def insertStmt (rng : MapRange) (i : Nat) (e : Record) (n : String) : Stmt :=
  let lists := insertLists (rng i e) [] []
  Stmt.insertInto n lists.1 lists.2

/-- The outer `range d` loop of `SaveSqlite`.  `i` numbers the next `range` loop over a
map. -/
def insertLoop (rng : MapRange) : Nat → List Record → String → Db → Except Fatal Unit × Db
  | _, [], _, db => (.ok (), db)
  | i, e :: rest, n, db =>
    let stmt := insertStmt rng i e n
    match db.Exec [stmt] with
    | (false, db1) => (.error (.execError [stmt]), db1)
    | (true, db1) => insertLoop rng (i + 1) rest n db1

/-- The function `SaveSqlite` on the database file in state `db`; returns how the call
ended and the state of the file afterwards. -/
def SaveSqlite (rng : MapRange) (k : List String) (d : List Record) (n : String) (db : Db) :
    Except Fatal Unit × Db :=
  if !tableExists db n then
    match createTable rng 0 db k d n with
    | (.error e, db1) => (.error e, db1)
    | (.ok _, db1) => insertLoop rng 1 d n db1
  else insertLoop rng 0 d n db

/-- Number of rows of table `n`, `none` when there is no such table (the query
`select count(*) from n` fails). -/
def rowCount (db : Db) (n : String) : Option Nat :=
  (db.find n).map (fun t => t.rows.length)

/-! ### Vocabulary of the statements

The definitions from here to `colsOf` are not part of the program: they say, in the words
of the specification, which values are handled and which column type and literal belong to
a value, and the theorems compare them with what `inferCols` and `insertLists` compute. -/

/-- A value of one of the three types the package handles. -/
def Value.typed : Value → Bool
  | .str _ => true
  | .int _ => true
  | .float64 _ => true
  | .other _ => false

/-- The column type of a value of a handled type: text for a `string`, integer for an
`int`, real for a `float64`.  (The value at `other` is never used: every statement about
`sqlType` is about handled values.) -/
def Value.sqlType : Value → SqlType
  | .str _ => .text
  | .int _ => .integer
  | .float64 _ => .real
  | .other _ => .text

/-- The literal of a value of a handled type: quoted for a `string`, decimal for an `int`,
fixed-point for a `float64`.  (The value at `other` is never used.) -/
def Value.literal : Value → Literal
  | .str s => .q s
  | .int i => .d i
  | .float64 b => .f b
  | .other _ => .q ""

/-- A record is well formed for a table with columns `cols`: it has the same keys as the
table has columns and every value is a `string`, an `int` or a `float64`. -/
def WellFormed (cols : List (String × SqlType)) (e : Record) : Prop :=
  List.Perm (e.map Prod.fst) (cols.map Prod.fst) ∧ ∀ kv ∈ e, kv.2.typed = true

/-- Every value of the record is written as text that sqlite reads as one value: no string
holds a double quote and no float is a NaN or an infinity. -/
def Writable (e : Record) : Prop := ∀ kv ∈ e, kv.2.literal.token = true

/-- The row for entries of handled types visited in the given order: every key with the
literal of its value. -/
def rowOf (entries : Record) : List (String × Literal) :=
  entries.map (fun kv => (kv.1, kv.2.literal))

/-- The columns for entries of handled types visited in the given order: every key with
the column type of its value. -/
def colsOf (entries : Record) : List (String × SqlType) :=
  entries.map (fun kv => (kv.1, kv.2.sqlType))

/-! ### Stores and batches of the examples -/

/-- The keywords of sqlite, in lower case. -/
def keywords : List String :=
  ["abort", "action", "add", "after", "all", "alter", "always", "analyze", "and", "as", "asc",
   "attach", "autoincrement", "before", "begin", "between", "by", "cascade", "case", "cast",
   "check", "collate", "column", "commit", "conflict", "constraint", "create", "cross",
   "current", "current_date", "current_time", "current_timestamp", "database", "default",
   "deferrable", "deferred", "delete", "desc", "detach", "distinct", "do", "drop", "each",
   "else", "end", "escape", "except", "exclude", "exclusive", "exists", "explain", "fail",
   "filter", "first", "following", "for", "foreign", "from", "full", "generated", "glob",
   "group", "groups", "having", "if", "ignore", "immediate", "in", "index", "indexed",
   "initially", "inner", "insert", "instead", "intersect", "into", "is", "isnull", "join",
   "key", "last", "left", "like", "limit", "match", "materialized", "natural", "no", "not",
   "nothing", "notnull", "null", "nulls", "of", "offset", "on", "or", "order", "others",
   "outer", "over", "partition", "plan", "pragma", "preceding", "primary", "query", "raise",
   "range", "recursive", "references", "regexp", "reindex", "release", "rename", "replace",
   "restrict", "returning", "right", "rollback", "row", "rows", "savepoint", "select", "set",
   "table", "temp", "temporary", "then", "ties", "to", "transaction", "trigger", "unbounded",
   "union", "unique", "update", "using", "vacuum", "values", "view", "virtual", "when",
   "where", "window", "with", "within", "without"]

/-- A name every version of sqlite reads as a name: ASCII letters, digits and underscores,
not starting with a digit, and not a keyword.  (sqlite reads some more names as names, such
as the keywords it lets stand for a name; `plainName` keeps to the safe side.) -/
def plainName (s : String) : Bool :=
  match s.data with
  | [] => false
  | c :: cs =>
    (c.isAlpha || c.toNat == 95) && cs.all (fun x => x.isAlphanum || x.toNat == 95) &&
      !keywords.contains (foldName s)

/-- The engine of the examples: it accepts a statement when the table name is a plain name
that does not start with `sqlite_`, every column name is a plain name and an insert names
no column twice (without case).  sqlite accepts the text of every statement this engine
accepts, as far as the names go. -/
def plainEngine : Stmt → Bool
  | .createTable n cols =>
    plainName n && !(foldName n).startsWith "sqlite_" && cols.all (fun c => plainName c.1)
  | .deleteFrom n => plainName n && !(foldName n).startsWith "sqlite_"
  | .insertInto n cls _ =>
    plainName n && !(foldName n).startsWith "sqlite_" && cls.all plainName &&
      decide ((cls.map foldName).Nodup)

/-- The store with no table, run by `plainEngine`. -/
def emptyDb : Db := { catalog := fun _ => none, journal := [], accepts := plainEngine }

/-- A store whose only table is `data`, with the three text columns of an animal and one
row from an earlier run. -/
def demoDb : Db :=
  emptyDb.put "data"
    { name := "data",
      cols := [("URL", SqlType.text), ("Name", SqlType.text), ("Breed", SqlType.text)],
      rows := [[("URL", Literal.q "https://site/w"), ("Name", Literal.q "Old"),
        ("Breed", Literal.q "Lab")]] }

/-- A record as `animalsToData` builds it for one enriched animal. -/
def demoRecord : Record :=
  [("URL", Value.str "https://site/x"), ("Name", Value.str "Rex"),
    ("Breed", Value.str "Kelpie")]

/-- The batch of that one record. -/
def demoBatch : List Record := [demoRecord]

/-- A record with a value of type `bool`. -/
def boolRecord : Record :=
  [("URL", Value.str "https://site/x"), ("Name", Value.str "Rex"),
    ("Breed", Value.other "bool")]

/-- A record whose name holds double quotes. -/
def quotedRecord : Record :=
  [("URL", Value.str "https://site/q"), ("Name", Value.str "Bruce \"Brucie\""),
    ("Breed", Value.str "Kelpie")]

/-- Iteration in the order the entries are listed. -/
def listedOrder : MapRange := fun _ m => m

end scraperwiki

namespace scraper

open scraperwiki

/-- The call `structs.Map(a)` on an `animal`: one entry per exported field, keyed by the
field name. -/
def structsMap (a : animal) : Record :=
  [("URL", Value.str a.URL), ("Name", Value.str a.Name), ("Breed", Value.str a.Breed)]

/-- The function `animalsToData`. -/
def animalsToData (as : List animal) : List Record :=
  as.foldl (fun d a => d ++ [structsMap a]) []

/-- A small site for the examples: page 1 lists two animals, page 2 one and page 3 none;
the detail pages of the first and third animal carry a breed heading, the one of the second
does not. -/
def demoSite : Http := fun u =>
  if u = pageURL 1 then
    some ⟨200, some ⟨[⟨["  Rex  "], [some "https://site/x"]⟩, ⟨["Bo"], [some "https://site/y"]⟩], []⟩⟩
  else if u = pageURL 2 then some ⟨200, some ⟨[⟨["Kim"], [some "https://site/z"]⟩], []⟩⟩
  else if u = pageURL 3 then some ⟨200, some ⟨[], []⟩⟩
  else if u = "https://site/x" then some ⟨200, some ⟨[], [" Kelpie ", "Adult"]⟩⟩
  else if u = "https://site/y" then some ⟨200, some ⟨[], []⟩⟩
  else if u = "https://site/z" then some ⟨200, some ⟨[], ["Pug"]⟩⟩
  else none

/-- The listing pages of `demoSite` as a function from the address to the records. -/
def demoPages (u : String) : List animal :=
  match scrapeSearchResultsPage demoSite u with
  | .ok as => as
  | .error _ => []

/-- The breed `demoSite` shows on the detail page at an address. -/
def demoBreed (u : String) : String :=
  if u = "https://site/x" then "Kelpie" else if u = "https://site/z" then "Pug" else ""

/-- The site `demoSite` with the detail page of the second animal answering 404. -/
def brokenSite : Http := fun u =>
  if u = "https://site/y" then some ⟨404, none⟩ else demoSite u

/-- A site whose first listing page is empty. -/
def emptySite : Http := fun u =>
  if u = pageURL 1 then some ⟨200, some ⟨[], []⟩⟩ else none

/-- An address whose request completed with status 200. -/
def Fetched200 (http : Http) (u : String) : Prop :=
  ∃ res, http u = some res ∧ res.StatusCode = 200

/-- What a run of `main` did: the addresses requested in order, the line printed (the
count), the batch handed to `SaveSqlite` when it was called, the database file afterwards
and how the run ended. -/
structure Run where
  fetched : List String
  printed : Option Nat
  saved : Option (List Record)
  db : Db
  outcome : Outcome Unit

/-- The function `main`, on network `http` and database file `db`. -/
def main (http : Http) (rng : MapRange) (fuel : Nat) (db : Db) : Run :=
  match index (scrapeSearchResultsPage http) fuel with
  | (f1, .running) =>
    { fetched := f1, printed := none, saved := none, db := db, outcome := .running }
  | (f1, .fatal e) =>
    { fetched := f1, printed := none, saved := none, db := db, outcome := .fatal e }
  | (f1, .done animals) =>
    match enrich http animals with
    | (f2, .error e) =>
      { fetched := f1 ++ f2, printed := none, saved := none, db := db, outcome := .fatal e }
    | (f2, .ok animals) =>
      let keys := ["URL"]
      let data := animalsToData animals
      let tableName := "data"
      match SaveSqlite rng keys data tableName db with
      | (.error e, db1) =>
        { fetched := f1 ++ f2, printed := some animals.length, saved := some data, db := db1,
          outcome := .fatal e }
      | (.ok _, db1) =>
        { fetched := f1 ++ f2, printed := some animals.length, saved := some data, db := db1,
          outcome := .done () }

end scraper

namespace scraper

open scraperwiki

/-! ## Supporting lemmas: strings and extraction -/

theorem head?_dropWhile_isSpace (l : List Char) (c : Char)
    (h : (l.dropWhile isSpace).head? = some c) : isSpace c = false := by
  have key := List.head?_dropWhile_not isSpace l
  rw [h] at key
  exact key

/-- The model of `strings.TrimSpace` removes a run of white space at each end and leaves a
string that neither starts nor ends with white space. -/
theorem TrimSpace_spec (s : String) :
    ∃ pre post : List Char, s.data = pre ++ (TrimSpace s).data ++ post ∧
      (∀ c ∈ pre, isSpace c = true) ∧ (∀ c ∈ post, isSpace c = true) ∧
      (∀ c, (TrimSpace s).data.head? = some c → isSpace c = false) ∧
      (∀ c, (TrimSpace s).data.getLast? = some c → isSpace c = false) := by
  have hm : s.data.dropWhile isSpace = (TrimSpace s).data ++
      (((s.data.dropWhile isSpace).reverse).takeWhile isSpace).reverse := by
    have h := List.takeWhile_append_dropWhile isSpace (s.data.dropWhile isSpace).reverse
    have h2 := congrArg List.reverse h
    rw [List.reverse_append, List.reverse_reverse] at h2
    exact h2.symm
  refine ⟨s.data.takeWhile isSpace,
    (((s.data.dropWhile isSpace).reverse).takeWhile isSpace).reverse, ?_, ?_, ?_, ?_, ?_⟩
  · rw [List.append_assoc, ← hm, List.takeWhile_append_dropWhile]
  · intro c hc
    exact List.mem_takeWhile_imp hc
  · intro c hc
    exact List.mem_takeWhile_imp (List.mem_reverse.mp hc)
  · intro c hc
    apply head?_dropWhile_isSpace s.data c
    rw [hm]
    cases hT : (TrimSpace s).data with
    | nil => rw [hT] at hc; simp at hc
    | cons x xs => rw [hT] at hc; simpa using hc
  · intro c hc
    apply head?_dropWhile_isSpace (s.data.dropWhile isSpace).reverse c
    have : (TrimSpace s).data = ((s.data.dropWhile isSpace).reverse.dropWhile isSpace).reverse :=
      rfl
    rw [this, List.getLast?_reverse] at hc
    exact hc

theorem Text_nil : Text [] = "" := rfl

theorem Text_singleton (t : String) : Text [t] = t := by
  simp [Text, String.join]

theorem foldl_append_singleton {α β : Type} (f : α → β) (l : List α) (acc : List β) :
    l.foldl (fun r x => r ++ [f x]) acc = acc ++ l.map f := by
  induction l generalizing acc with
  | nil => simp
  | cons x t ih => simp [ih]

theorem extractAnimals_eq_map (doc : Document) :
    extractAnimals doc = doc.cards.map cardAnimal := by
  simpa [extractAnimals] using foldl_append_singleton cardAnimal doc.cards []

theorem animalsToData_eq_map (as : List animal) : animalsToData as = as.map structsMap := by
  simpa [animalsToData] using foldl_append_singleton structsMap as []

end scraper

namespace scraper

open scraperwiki

/-! ## Supporting lemmas: the pagination loop and the enrichment loop -/

theorem range_succ_map_shift (m p : Nat) :
    (List.range (m + 1)).map (fun j => pageURL (p + j)) =
      pageURL p :: (List.range m).map (fun j => pageURL (p + 1 + j)) := by
  rw [List.range_succ_eq_map]
  simp [List.map_map, Function.comp_def, Nat.add_assoc, Nat.add_comm 1]

theorem range_succ_flatMap_shift (ex : String → List animal) (m p : Nat) :
    (List.range (m + 1)).flatMap (fun j => ex (pageURL (p + j))) =
      ex (pageURL p) ++ (List.range m).flatMap (fun j => ex (pageURL (p + 1 + j))) := by
  rw [List.range_succ_eq_map]
  simp [List.flatMap_map, Function.comp_def, Nat.add_assoc, Nat.add_comm 1]

/-- The loop started at page `p` with `m` non-empty pages ahead of the first empty one
stops after `m + 1` calls, whatever was accumulated before. -/
theorem indexLoop_spec (ex : String → List animal) (m : Nat) :
    ∀ (p fuel : Nat) (animals : List animal) (calls : List String),
      (∀ j, j < m → ex (pageURL (p + j)) ≠ []) → ex (pageURL (p + m)) = [] → m + 1 ≤ fuel →
      indexLoop (fun u => Except.ok (ex u)) fuel p animals calls =
        (calls ++ (List.range (m + 1)).map (fun j => pageURL (p + j)),
         Outcome.done (animals ++ (List.range m).flatMap (fun j => ex (pageURL (p + j))))) := by
  induction m with
  | zero =>
    intro p fuel animals calls _ h0 hf
    obtain ⟨f, rfl⟩ : ∃ f, fuel = f + 1 := ⟨fuel - 1, by omega⟩
    have h0' : ex (pageURL p) = [] := by simpa using h0
    simp [indexLoop, h0', List.range_succ]
  | succ m ih =>
    intro p fuel animals calls hne h0 hf
    obtain ⟨f, rfl⟩ : ∃ f, fuel = f + 1 := ⟨fuel - 1, by omega⟩
    have hp : ex (pageURL p) ≠ [] := by simpa using hne 0 (by omega)
    have hne' : ∀ j, j < m → ex (pageURL (p + 1 + j)) ≠ [] := by
      intro j hj
      have := hne (j + 1) (by omega)
      rwa [show p + (j + 1) = p + 1 + j by omega] at this
    have h0' : ex (pageURL (p + 1 + m)) = [] := by
      rwa [show p + (m + 1) = p + 1 + m by omega] at h0
    have step := ih (p + 1) f (animals ++ ex (pageURL p)) (calls ++ [pageURL p]) hne' h0'
      (by omega)
    rw [range_succ_map_shift (m + 1) p, range_succ_flatMap_shift ex m p]
    simp only [indexLoop, List.length_eq_zero, hp, if_false]
    rw [step]
    simp [List.append_assoc]

end scraper

namespace scraper

open scraperwiki

theorem scrape_of_response (http : Http) (a : animal) (res : Response) (doc : Document)
    (hget : http a.URL = some res) (hstatus : res.StatusCode = 200)
    (hbody : res.Body = some doc) : scrape http a = Except.ok (setBreed doc a) := by
  simp [scrape, hget, hstatus, hbody]

/-- With every detail fetch succeeding, the loop rewrites the part of the slice it has not
visited yet, element by element, and requests the addresses of those elements in order. -/
theorem enrichLoop_spec (http : Http) (detail : String → String) (rest : List animal) :
    ∀ (pre : List animal) (fetched : List String),
      (∀ a ∈ rest, ∃ res doc, http a.URL = some res ∧ res.StatusCode = 200 ∧
        res.Body = some doc ∧ TrimSpace (Text (First doc.breedH3)) = detail a.URL) →
      enrichLoop http rest pre.length (pre ++ rest) fetched =
        (fetched ++ rest.map (fun a => a.URL),
         Except.ok (pre ++ rest.map (fun a => { a with Breed := detail a.URL }))) := by
  induction rest with
  | nil => intro pre fetched _; simp [enrichLoop]
  | cons a rest ih =>
    intro pre fetched h
    obtain ⟨res, doc, hget, hstatus, hbody, hbreed⟩ := h a (List.mem_cons_self a rest)
    have hs : scrape http a = Except.ok { a with Breed := detail a.URL } := by
      rw [scrape_of_response http a res doc hget hstatus hbody, setBreed, hbreed]
    have hset : (pre ++ a :: rest).set pre.length { a with Breed := detail a.URL } =
        (pre ++ [{ a with Breed := detail a.URL }]) ++ rest := by
      simp [List.set_append]
    have step := ih (pre ++ [{ a with Breed := detail a.URL }]) (fetched ++ [a.URL])
      (fun b hb => h b (List.mem_cons_of_mem a hb))
    simp only [List.length_append, List.length_singleton] at step
    simp only [enrichLoop, hs, hset, step]
    simp [List.append_assoc]

theorem scrapeSearchResultsPage_ok (http : Http) (u : String) (as : List animal)
    (h : scrapeSearchResultsPage http u = Except.ok as) : Fetched200 http u := by
  unfold scrapeSearchResultsPage at h
  cases hg : http u with
  | none => simp [hg] at h
  | some res =>
    by_cases hs : res.StatusCode = 200
    · exact ⟨res, hg, hs⟩
    · simp [hg, hs] at h

theorem scrape_ok (http : Http) (a b : animal) (h : scrape http a = Except.ok b) :
    Fetched200 http a.URL := by
  unfold scrape at h
  cases hg : http a.URL with
  | none => simp [hg] at h
  | some res =>
    by_cases hs : res.StatusCode = 200
    · exact ⟨res, hg, hs⟩
    · simp [hg, hs] at h

/-- A pagination loop that did not end in a fatal error only made requests that were
answered with status 200. -/
theorem indexLoop_fetched (http : Http) (fuel : Nat) :
    ∀ (p : Nat) (animals : List animal) (calls : List String),
      (∀ u ∈ calls, Fetched200 http u) →
      (∀ e, (indexLoop (scrapeSearchResultsPage http) fuel p animals calls).2 ≠
        Outcome.fatal e) →
      ∀ u ∈ (indexLoop (scrapeSearchResultsPage http) fuel p animals calls).1,
        Fetched200 http u := by
  induction fuel with
  | zero => intro p animals calls hc _ u hu; exact hc u (by simpa [indexLoop] using hu)
  | succ fuel ih =>
    intro p animals calls hc hnf u hu
    cases hx : scrapeSearchResultsPage http (pageURL p) with
    | error e => simp [indexLoop, hx] at hnf
    | ok as =>
      have hcalls : ∀ v ∈ calls ++ [pageURL p], Fetched200 http v := by
        intro v hv
        rcases List.mem_append.mp hv with hv | hv
        · exact hc v hv
        · rw [List.mem_singleton.mp hv]; exact scrapeSearchResultsPage_ok http _ as hx
      by_cases hlen : as.length = 0
      · simp only [indexLoop, hx, hlen, if_true] at hu
        exact hcalls u hu
      · simp only [indexLoop, hx, hlen, if_false] at hu hnf
        exact ih (p + 1) (animals ++ as) (calls ++ [pageURL p]) hcalls hnf u hu

/-- An enrichment loop that completed only made requests that were answered with status
200. -/
theorem enrichLoop_fetched (http : Http) (rest : List animal) :
    ∀ (i : Nat) (animals : List animal) (fetched : List String) (out : List animal),
      (∀ u ∈ fetched, Fetched200 http u) →
      (enrichLoop http rest i animals fetched).2 = Except.ok out →
      ∀ u ∈ (enrichLoop http rest i animals fetched).1, Fetched200 http u := by
  induction rest with
  | nil => intro i animals fetched out hc _ u hu; exact hc u (by simpa [enrichLoop] using hu)
  | cons a rest ih =>
    intro i animals fetched out hc hok u hu
    cases hx : scrape http a with
    | error e => simp [enrichLoop, hx] at hok
    | ok b =>
      have hf : ∀ v ∈ fetched ++ [a.URL], Fetched200 http v := by
        intro v hv
        rcases List.mem_append.mp hv with hv | hv
        · exact hc v hv
        · rw [List.mem_singleton.mp hv]; exact scrape_ok http a b hx
      simp only [enrichLoop, hx] at hu hok
      exact ih (i + 1) (animals.set i b) (fetched ++ [a.URL]) out hf hok u hu

end scraper

namespace scraperwiki

open scraper (Fatal)

/-! ## Supporting lemmas: schema inference and insert statements -/

theorem inferCols_typed (l : Record) :
    ∀ acc : List (String × SqlType), (∀ kv ∈ l, kv.2.typed = true) →
      inferCols l acc = Except.ok (acc ++ colsOf l) := by
  induction l with
  | nil => intro acc _; simp [inferCols, colsOf]
  | cons kv rest ih =>
    intro acc h
    obtain ⟨kk, x⟩ := kv
    have hx : x.typed = true := h (kk, x) (List.mem_cons_self _ _)
    have hrest : ∀ kv ∈ rest, kv.2.typed = true := fun kv hkv => h kv (List.mem_cons_of_mem _ hkv)
    cases x with
    | str s => simp [inferCols, ih _ hrest, colsOf, Value.sqlType]
    | int j => simp [inferCols, ih _ hrest, colsOf, Value.sqlType]
    | float64 b => simp [inferCols, ih _ hrest, colsOf, Value.sqlType]
    | other t => simp [Value.typed] at hx

theorem inferCols_untyped (l : Record) :
    ∀ acc : List (String × SqlType), (∃ kv ∈ l, kv.2.typed = false) →
      inferCols l acc = Except.error Fatal.unknownType := by
  induction l with
  | nil => intro acc h; simp at h
  | cons kv rest ih =>
    intro acc h
    obtain ⟨kk, x⟩ := kv
    cases x with
    | other t => simp [inferCols]
    | str s =>
      have : ∃ kv ∈ rest, kv.2.typed = false := by simpa [Value.typed] using h
      simp [inferCols, ih _ this]
    | int j =>
      have : ∃ kv ∈ rest, kv.2.typed = false := by simpa [Value.typed] using h
      simp [inferCols, ih _ this]
    | float64 b =>
      have : ∃ kv ∈ rest, kv.2.typed = false := by simpa [Value.typed] using h
      simp [inferCols, ih _ this]

theorem typed_or_untyped (l : Record) :
    (∀ kv ∈ l, kv.2.typed = true) ∨ (∃ kv ∈ l, kv.2.typed = false) := by
  by_cases h : ∀ kv ∈ l, kv.2.typed = true
  · exact Or.inl h
  · right
    push_neg at h
    obtain ⟨kv, hkv, hne⟩ := h
    exact ⟨kv, hkv, by simpa using hne⟩

theorem untyped_of_perm {l₁ l₂ : Record} (hp : List.Perm l₁ l₂)
    (h : ∃ kv ∈ l₂, kv.2.typed = false) : ∃ kv ∈ l₁, kv.2.typed = false := by
  obtain ⟨kv, hkv, hu⟩ := h
  exact ⟨kv, hp.mem_iff.mpr hkv, hu⟩

theorem typed_of_perm {l₁ l₂ : Record} (hp : List.Perm l₁ l₂)
    (h : ∀ kv ∈ l₂, kv.2.typed = true) : ∀ kv ∈ l₁, kv.2.typed = true :=
  fun kv hkv => h kv (hp.mem_iff.mp hkv)

/-- Every key goes to the column list; a value goes to the value list when its type is
handled. -/
theorem insertLists_eq (l : Record) :
    ∀ (cls : List String) (vls : List Literal),
      insertLists l cls vls =
        (cls ++ l.map Prod.fst,
         vls ++ (l.filter (fun kv => kv.2.typed)).map (fun kv => kv.2.literal)) := by
  induction l with
  | nil => intro cls vls; simp [insertLists]
  | cons kv rest ih =>
    intro cls vls
    obtain ⟨kk, x⟩ := kv
    cases x <;> simp [insertLists, ih, Value.typed, Value.literal]

theorem insertLists_typed (l : Record) (h : ∀ kv ∈ l, kv.2.typed = true) :
    insertLists l [] [] = (l.map Prod.fst, l.map (fun kv => kv.2.literal)) := by
  have hf : l.filter (fun kv => kv.2.typed) = l := List.filter_eq_self.mpr h
  simp [insertLists_eq, hf]

theorem zip_keys_literals (l : Record) :
    (l.map Prod.fst).zip (l.map (fun kv => kv.2.literal)) = rowOf l := by
  induction l with
  | nil => rfl
  | cons kv rest ih => simp [rowOf] at ih ⊢; exact ih

end scraperwiki

namespace scraperwiki

open scraper (Fatal)

/-! ## Supporting lemmas: the store -/

theorem put_find_same (db : Db) (n : String) (t : Table) : (db.put n t).find n = some t := by
  simp [Db.put, Db.find]

theorem put_journal (db : Db) (n : String) (t : Table) : (db.put n t).journal = db.journal :=
  rfl

theorem put_accepts (db : Db) (n : String) (t : Table) : (db.put n t).accepts = db.accepts :=
  rfl

theorem tables_eq_some (db : Db) (n : String) (t : Table) :
    db.tables n = some t ↔ db.find n = some t ∧ t.name = n := by
  unfold Db.tables
  cases hf : db.find n with
  | none => simp
  | some t0 =>
    by_cases hn : t0.name = n
    · simp only [hn, if_true, Option.some.injEq]
      constructor
      · rintro rfl; exact ⟨rfl, hn⟩
      · rintro ⟨h, _⟩; exact h
    · simp only [hn, if_false, Option.some.injEq]
      constructor
      · intro h; cases h
      · rintro ⟨rfl, h⟩; exact absurd h hn

theorem tables_of_find (db : Db) (n : String) (t : Table) (hf : db.find n = some t)
    (hn : t.name = n) : db.tables n = some t :=
  (tables_eq_some db n t).mpr ⟨hf, hn⟩

theorem tableExists_of_tables (db : Db) (n : String) (t : Table) (h : db.tables n = some t) :
    tableExists db n = true := by
  simp [tableExists, h]

theorem tableExists_of_none (db : Db) (n : String) (h : db.tables n = none) :
    tableExists db n = false := by
  simp [tableExists, h]

/-- An accepted statement leaves the journal and the engine as they are. -/
theorem apply_frame (db db2 : Db) (s : Stmt) (h : db.apply s = some db2) :
    db2.journal = db.journal ∧ db2.accepts = db.accepts := by
  unfold Db.apply at h
  split at h
  · cases h
  · split at h
    · split at h
      · cases h
      · split at h
        · cases h; exact ⟨rfl, rfl⟩
        · cases h
    · split at h
      · cases h
      · cases h; exact ⟨rfl, rfl⟩
    · split at h
      · cases h
      · split at h
        · cases h; exact ⟨rfl, rfl⟩
        · cases h

/-- An accepted create statement found no table of that name and left the empty table. -/
theorem apply_create (db db2 : Db) (n : String) (cols : List (String × SqlType))
    (h : db.apply (Stmt.createTable n cols) = some db2) :
    db.find n = none ∧ db2 = db.put n { name := n, cols := cols, rows := [] } := by
  unfold Db.apply at h
  split at h
  · cases h
  · simp only at h
    split at h
    · cases h
    · next hf =>
      split at h
      · cases h; exact ⟨hf, rfl⟩
      · cases h

/-- A create statement that declares no column is rejected. -/
theorem apply_create_nil (db : Db) (n : String) :
    db.apply (Stmt.createTable n []) = none := by
  cases h : db.apply (Stmt.createTable n []) with
  | none => rfl
  | some db2 =>
    unfold Db.apply at h
    split at h
    · cases h
    · simp only at h
      split at h
      · cases h
      · simp at h

/-- An accepted delete statement emptied the table of that name. -/
theorem apply_delete (db db2 : Db) (n : String) (h : db.apply (Stmt.deleteFrom n) = some db2) :
    ∃ t, db.find n = some t ∧ db2 = db.put n { t with rows := [] } := by
  unfold Db.apply at h
  split at h
  · cases h
  · simp only at h
    split at h
    · cases h
    · next t hf => cases h; exact ⟨t, hf, rfl⟩

/-- An accepted insert statement had as many values as columns and added one row behind
the rows of the table. -/
theorem apply_insert (db db2 : Db) (n : String) (cls : List String) (vls : List Literal)
    (h : db.apply (Stmt.insertInto n cls vls) = some db2) :
    ∃ t, db.find n = some t ∧ cls.length = vls.length ∧
      db2 = db.put n { t with rows := t.rows ++ [cls.zip vls] } := by
  unfold Db.apply at h
  split at h
  · cases h
  · simp only at h
    split at h
    · cases h
    · next t hf =>
      split at h
      · next hc => cases h; exact ⟨t, hf, hc.2.1, rfl⟩
      · cases h

/-- The statements a call of `Exec` submits are added to the journal, the first one in
any case. -/
theorem Exec_journal (script : List Stmt) :
    ∀ db : Db, ∃ issued, (db.Exec script).2.journal = db.journal ++ issued ∧
      (db.Exec script).2.accepts = db.accepts ∧
      (∀ s rest, script = s :: rest → ∃ tail, issued = s :: tail) ∧
      ∀ s ∈ issued, s ∈ script := by
  induction script with
  | nil => intro db; exact ⟨[], by simp [Db.Exec], rfl, by simp, by simp⟩
  | cons s rest ih =>
    intro db
    cases happ : ({ db with journal := db.journal ++ [s] } : Db).apply s with
    | none =>
      refine ⟨[s], by simp [Db.Exec, happ], by simp [Db.Exec, happ], ?_, by simp⟩
      intro s' rest' h
      cases h
      exact ⟨[], rfl⟩
    | some db2 =>
      obtain ⟨hj, ha⟩ := apply_frame _ _ _ happ
      obtain ⟨issued, hiss, hacc, _, hmem⟩ := ih db2
      refine ⟨s :: issued, ?_, ?_, ?_, ?_⟩
      · simp only [Db.Exec, happ, hiss, hj]
        simp
      · simp only [Db.Exec, happ, hacc, ha]
      · intro s' rest' h
        cases h
        exact ⟨issued, rfl⟩
      · intro x hx
        rcases List.mem_cons.mp hx with rfl | hx
        · exact List.mem_cons_self _ _
        · exact List.mem_cons_of_mem _ (hmem x hx)

end scraperwiki
namespace scraperwiki

open scraper (Fatal)

/-! ## Supporting lemmas: the insert loop and the two paths of `SaveSqlite` -/

theorem isRange_listedOrder : IsRange listedOrder := fun _ m => List.Perm.refl m

/-- When the two lists of an insert statement have the same length, every value of the
record has a handled type and the row written is the row of the record. -/
theorem insertLists_zip (l : Record)
    (h : (insertLists l [] []).1.length = (insertLists l [] []).2.length) :
    (insertLists l [] []).1.zip (insertLists l [] []).2 = rowOf l := by
  rw [insertLists_eq] at h
  simp only [List.nil_append, List.length_map] at h
  have hall : ∀ kv ∈ l, kv.2.typed = true := by
    have := (List.filter_length_eq_length (l := l) (p := fun kv => kv.2.typed)).mp h.symm
    exact this
  rw [insertLists_typed l hall]
  exact zip_keys_literals l

/-- The column list and the value list of an insert statement have the same length exactly
when every value of the record has a handled type. -/
theorem insertLists_length (rng : MapRange) (hrng : IsRange rng) (i : Nat) (e : Record) :
    (insertLists (rng i e) [] []).1.length = (insertLists (rng i e) [] []).2.length ↔
      ∀ kv ∈ e, kv.2.typed = true := by
  have hmem : (∀ kv ∈ rng i e, kv.2.typed = true) ↔ ∀ kv ∈ e, kv.2.typed = true :=
    ⟨fun h kv hkv => h kv ((hrng i e).mem_iff.mpr hkv),
     fun h kv hkv => h kv ((hrng i e).mem_iff.mp hkv)⟩
  rw [← hmem, insertLists_eq]
  simp only [List.nil_append, List.length_map]
  rw [eq_comm, List.filter_length_eq_length]

/-- The insert loop never removes a row.  However it ends, the table holds the rows it
held, in place, followed by the rows of the accepted inserts; when the loop ends normally
these are one row per record, in batch order, each the row of its record up to the order
of the columns. -/
theorem insertLoop_rows (rng : MapRange) (hrng : IsRange rng) (n : String) (d : List Record) :
    ∀ (i : Nat) (db : Db) (t : Table), db.find n = some t →
      ∃ rows : List (List (String × Literal)),
        (insertLoop rng i d n db).2.find n = some { t with rows := t.rows ++ rows } ∧
        (insertLoop rng i d n db).2.accepts = db.accepts ∧
        ((insertLoop rng i d n db).1 = Except.ok () →
          List.Forall₂ (fun e row => List.Perm row (rowOf e)) d rows) := by
  induction d with
  | nil =>
    intro i db t ht
    exact ⟨[], by simpa [insertLoop] using ht, rfl, fun _ => List.Forall₂.nil⟩
  | cons e rest ih =>
    intro i db t ht
    cases happ : ({ db with journal := db.journal ++ [insertStmt rng i e n] } : Db).apply
        (insertStmt rng i e n) with
    | none =>
      refine ⟨[], ?_, ?_, ?_⟩
      · simpa [insertLoop, Db.Exec, happ, Db.find] using ht
      · simp [insertLoop, Db.Exec, happ]
      · intro hok
        simp [insertLoop, Db.Exec, happ] at hok
    | some db2 =>
      obtain ⟨t0, ht0, hlen, hdb2⟩ := apply_insert _ _ _ _ _ happ
      have ht0' : t0 = t := by
        have : db.find n = some t0 := ht0
        rw [ht] at this
        exact (Option.some.inj this).symm
      subst ht0'
      have hrow : (insertLists (rng i e) [] []).1.zip (insertLists (rng i e) [] []).2 =
          rowOf (rng i e) := insertLists_zip _ hlen
      have hfind2 : db2.find n = some { t0 with rows := t0.rows ++ [rowOf (rng i e)] } := by
        rw [hdb2, put_find_same, hrow]
      have hacc2 : db2.accepts = db.accepts := (apply_frame _ _ _ happ).2
      obtain ⟨rows, hfind, hacc, hok⟩ := ih (i + 1) db2 _ hfind2
      have hloop : insertLoop rng i (e :: rest) n db = insertLoop rng (i + 1) rest n db2 := by
        simp [insertLoop, Db.Exec, happ]
      refine ⟨rowOf (rng i e) :: rows, ?_, ?_, ?_⟩
      · rw [hloop, hfind]
        simp [List.append_assoc]
      · rw [hloop, hacc, hacc2]
      · intro h
        rw [hloop] at h
        exact List.Forall₂.cons ((hrng i e).map _) (hok h)

/-- A record that is well formed for the table and writable, in a statement the engine
accepts, is inserted. -/
theorem apply_insert_wellFormed (rng : MapRange) (hrng : IsRange rng) (i : Nat) (e : Record)
    (n : String) (db : Db) (t : Table) (ht : db.find n = some t) (hcols : t.cols ≠ [])
    (hwf : WellFormed t.cols e) (hw : Writable e)
    (hacc : db.accepts (insertStmt rng i e n) = true) :
    ∃ db2, db.apply (insertStmt rng i e n) = some db2 := by
  have hperm := hrng i e
  have htyped : ∀ kv ∈ rng i e, kv.2.typed = true := typed_of_perm hperm hwf.2
  have hkeys : List.Perm ((rng i e).map Prod.fst) (t.cols.map Prod.fst) :=
    (hperm.map Prod.fst).trans hwf.1
  have hne : (rng i e).map Prod.fst ≠ [] := by
    intro h0
    rw [h0] at hkeys
    exact hcols (List.map_eq_nil_iff.mp hkeys.symm.eq_nil)
  have hmem : ∀ c ∈ (rng i e).map Prod.fst,
      foldName c ∈ t.cols.map (fun c => foldName c.1) := by
    intro c hc
    have hc' : c ∈ t.cols.map Prod.fst := hkeys.mem_iff.mp hc
    obtain ⟨col, hcol, rfl⟩ := List.mem_map.mp hc'
    exact List.mem_map.mpr ⟨col, hcol, rfl⟩
  have htok : ∀ v ∈ (rng i e).map (fun kv => kv.2.literal), v.token = true := by
    intro v hv
    obtain ⟨kv, hkv, rfl⟩ := List.mem_map.mp hv
    exact hw kv (hperm.mem_iff.mp hkv)
  have hstmt : insertStmt rng i e n =
      Stmt.insertInto n ((rng i e).map Prod.fst) ((rng i e).map (fun kv => kv.2.literal)) := by
    simp [insertStmt, insertLists_typed _ htyped]
  rw [hstmt] at hacc ⊢
  have hcond : (rng i e).map Prod.fst ≠ [] ∧
      ((rng i e).map Prod.fst).length = ((rng i e).map (fun kv => kv.2.literal)).length ∧
      (∀ c ∈ (rng i e).map Prod.fst, foldName c ∈ t.cols.map (fun c => foldName c.1)) ∧
      (∀ v ∈ (rng i e).map (fun kv => kv.2.literal), v.token = true) :=
    ⟨hne, by simp, hmem, htok⟩
  simp only [Db.apply, hacc, ht, if_pos hcond]
  simp

/-- The insert loop ends normally on a batch of records that are well formed for the
table and writable, when the engine accepts every insert statement of the batch. -/
theorem insertLoop_ok (rng : MapRange) (hrng : IsRange rng) (n : String) (d : List Record)
    (acc : Stmt → Bool) (hacc : ∀ (j : Nat) (e : Record), e ∈ d → acc (insertStmt rng j e n) = true)
    (cols : List (String × SqlType)) (hcols : cols ≠ [])
    (hwf : ∀ e ∈ d, WellFormed cols e ∧ Writable e) :
    ∀ (i : Nat) (db : Db) (t : Table), db.find n = some t → t.cols = cols → db.accepts = acc →
      (insertLoop rng i d n db).1 = Except.ok () := by
  induction d with
  | nil => intro i db t _ _ _; rfl
  | cons e rest ih =>
    intro i db t ht hc ha
    subst hc
    have he := hwf e (List.mem_cons_self _ _)
    obtain ⟨db2, happ⟩ := apply_insert_wellFormed rng hrng i e n
      ({ db with journal := db.journal ++ [insertStmt rng i e n] } : Db) t ht hcols he.1 he.2
      (by rw [← hacc i e (List.mem_cons_self _ _), ← ha])
    obtain ⟨t0, ht0, _, hdb2⟩ := apply_insert _ _ _ _ _ happ
    have hfind2 : db2.find n = some { t0 with rows := t0.rows ++
        [(insertLists (rng i e) [] []).1.zip (insertLists (rng i e) [] []).2] } := by
      rw [hdb2, put_find_same]
    have ht0' : t0 = t := by
      have : db.find n = some t0 := ht0
      rw [ht] at this
      exact (Option.some.inj this).symm
    subst ht0'
    have hloop : insertLoop rng i (e :: rest) n db = insertLoop rng (i + 1) rest n db2 := by
      simp [insertLoop, Db.Exec, happ]
    rw [hloop]
    exact ih (fun j e' he' => hacc j e' (List.mem_cons_of_mem _ he'))
      (fun e' he' => hwf e' (List.mem_cons_of_mem _ he')) (i + 1) db2 _ hfind2 rfl
      (by rw [(apply_frame _ _ _ happ).2]; exact ha)

/-- The insert loop only adds insert statements for the table to the journal. -/
theorem insertLoop_journal (rng : MapRange) (n : String) (d : List Record) :
    ∀ (i : Nat) (db : Db), ∃ ins : List Stmt,
      (insertLoop rng i d n db).2.journal = db.journal ++ ins ∧
      ∀ s ∈ ins, ∃ cls vls, s = Stmt.insertInto n cls vls := by
  induction d with
  | nil => intro i db; exact ⟨[], by simp [insertLoop], by simp⟩
  | cons e rest ih =>
    intro i db
    cases happ : ({ db with journal := db.journal ++ [insertStmt rng i e n] } : Db).apply
        (insertStmt rng i e n) with
    | none =>
      refine ⟨[insertStmt rng i e n], by simp [insertLoop, Db.Exec, happ], ?_⟩
      intro s hs
      rw [List.mem_singleton.mp hs]
      exact ⟨_, _, rfl⟩
    | some db2 =>
      have hj : db2.journal = db.journal ++ [insertStmt rng i e n] :=
        (apply_frame _ _ _ happ).1
      obtain ⟨ins, hins, hall⟩ := ih (i + 1) db2
      refine ⟨insertStmt rng i e n :: ins, ?_, ?_⟩
      · simp [insertLoop, Db.Exec, happ, hins, hj]
      · intro s hs
        rcases List.mem_cons.mp hs with rfl | hs
        · exact ⟨_, _, rfl⟩
        · exact hall s hs

/-- The insert loop ends normally or with a rejected statement. -/
theorem insertLoop_error (rng : MapRange) (n : String) (d : List Record) :
    ∀ (i : Nat) (db : Db) (err : Fatal), (insertLoop rng i d n db).1 = Except.error err →
      ∃ stmt, err = Fatal.execError stmt := by
  induction d with
  | nil => intro i db err h; simp [insertLoop] at h
  | cons e rest ih =>
    intro i db err h
    rcases hex : db.Exec [insertStmt rng i e n] with ⟨ok, db1⟩
    cases ok with
    | false =>
      simp only [insertLoop, hex] at h
      exact ⟨_, (Except.error.inj h).symm⟩
    | true =>
      simp only [insertLoop, hex] at h
      exact ih (i + 1) db1 err h

/-- On a non-empty batch `createTable` ends normally, with `unknown type` or with a
rejected statement. -/
theorem createTable_error (rng : MapRange) (hrng : IsRange rng) (i : Nat) (db : Db)
    (k : List String) (e : Record) (rest : List Record) (n : String) (err : Fatal)
    (h : (createTable rng i db k (e :: rest) n).1 = Except.error err) :
    (err = Fatal.unknownType ∧ ∃ kv ∈ e, kv.2.typed = false) ∨
      ((∀ kv ∈ e, kv.2.typed = true) ∧
        err = Fatal.execError [Stmt.createTable n (colsOf (rng i e)), Stmt.deleteFrom n] ∧
        (db.Exec [Stmt.createTable n (colsOf (rng i e)), Stmt.deleteFrom n]).1 = false) := by
  rcases typed_or_untyped (rng i e) with ht | hu
  · right
    have hscript : createTableScript rng i (e :: rest) n =
        Except.ok [Stmt.createTable n (colsOf (rng i e)), Stmt.deleteFrom n] := by
      simp [createTableScript, inferCols_typed _ _ ht]
    rcases hex : db.Exec [Stmt.createTable n (colsOf (rng i e)), Stmt.deleteFrom n] with
      ⟨ok, db1⟩
    cases ok with
    | false =>
      simp only [createTable, hscript, hex] at h
      exact ⟨fun kv hkv => ht kv ((hrng i e).mem_iff.mpr hkv), (Except.error.inj h).symm, rfl⟩
    | true => simp [createTable, hscript, hex] at h
  · left
    have hscript : createTableScript rng i (e :: rest) n = Except.error Fatal.unknownType := by
      simp [createTableScript, inferCols_untyped _ _ hu]
    simp only [createTable, hscript] at h
    obtain ⟨kv, hkv, hty⟩ := hu
    exact ⟨(Except.error.inj h).symm, kv, (hrng i e).mem_iff.mp hkv, hty⟩

/-- When `createTable` ends normally on a non-empty batch, no table had that name, and
afterwards the table exists under that name, with the columns of the first record and no
row. -/
theorem createTable_ok (rng : MapRange) (i : Nat) (db db1 : Db) (k : List String)
    (e : Record) (rest : List Record) (n : String)
    (h : createTable rng i db k (e :: rest) n = (Except.ok (), db1)) :
    db.find n = none ∧
      db1.find n = some { name := n, cols := colsOf (rng i e), rows := [] } ∧
      db1.accepts = db.accepts := by
  rcases typed_or_untyped (rng i e) with ht | hu
  · have hscript : createTableScript rng i (e :: rest) n =
        Except.ok [Stmt.createTable n (colsOf (rng i e)), Stmt.deleteFrom n] := by
      simp [createTableScript, inferCols_typed _ _ ht]
    cases hc : ({ db with journal := db.journal ++
        [Stmt.createTable n (colsOf (rng i e))] } : Db).apply
        (Stmt.createTable n (colsOf (rng i e))) with
    | none => simp [createTable, hscript, Db.Exec, hc] at h
    | some dbc =>
      obtain ⟨hnone, hdbc⟩ := apply_create _ _ _ _ hc
      cases hd : ({ dbc with journal := dbc.journal ++ [Stmt.deleteFrom n] } : Db).apply
          (Stmt.deleteFrom n) with
      | none => simp [createTable, hscript, Db.Exec, hc, hd] at h
      | some dbd =>
        obtain ⟨t, ht', hdbd⟩ := apply_delete _ _ _ hd
        have hdb1 : db1 = dbd := by
          simp only [createTable, hscript, Db.Exec, hc, hd] at h
          exact (Prod.mk.inj h).2.symm
        have htc : dbc.find n = some { name := n, cols := colsOf (rng i e), rows := [] } := by
          rw [hdbc, put_find_same]
        have ht'' : t = { name := n, cols := colsOf (rng i e), rows := [] } := by
          have : dbc.find n = some t := ht'
          rw [htc] at this
          exact (Option.some.inj this).symm
        refine ⟨hnone, ?_, ?_⟩
        · rw [hdb1, hdbd, put_find_same, ht'']
        · rw [hdb1, (apply_frame _ _ _ hd).2]
          exact (apply_frame _ _ _ hc).2
  · have hscript : createTableScript rng i (e :: rest) n = Except.error Fatal.unknownType := by
      simp [createTableScript, inferCols_untyped _ _ hu]
    simp [createTable, hscript] at h

/-- On a first record of handled types with at least one key and no two keys equal without
case, `createTable` ends normally when no table has that name and the engine accepts the
two statements. -/
theorem createTable_fresh (rng : MapRange) (i : Nat) (db : Db) (k : List String) (e : Record)
    (rest : List Record) (n : String) (ht : db.find n = none)
    (htyped : ∀ kv ∈ rng i e, kv.2.typed = true) (hne : colsOf (rng i e) ≠ [])
    (hdup : ((colsOf (rng i e)).map (fun c => foldName c.1)).Nodup)
    (hc : db.accepts (Stmt.createTable n (colsOf (rng i e))) = true)
    (hd : db.accepts (Stmt.deleteFrom n) = true) :
    (createTable rng i db k (e :: rest) n).1 = Except.ok () := by
  have hscript : createTableScript rng i (e :: rest) n =
      Except.ok [Stmt.createTable n (colsOf (rng i e)), Stmt.deleteFrom n] := by
    simp [createTableScript, inferCols_typed _ _ htyped]
  have hcond : colsOf (rng i e) ≠ [] ∧
      ((colsOf (rng i e)).map (fun c => foldName c.1)).Nodup := ⟨hne, hdup⟩
  have hfind : ({ db with journal := db.journal ++
      [Stmt.createTable n (colsOf (rng i e))] } : Db).find n = none := ht
  simp only [createTable, hscript, Db.Exec, Db.apply, hc, hfind, if_pos hcond]
  simp [Db.put, Db.find, hd]

end scraperwiki
namespace scraperwiki

open scraper (Fatal)

/-- The existing-table path never removes a row: however the call ends, the table holds
the rows it held, in place, followed by the rows the call inserted; these are one row per
record of the batch when the call ends normally. -/
theorem SaveSqlite_existing_rows (rng : MapRange) (hrng : IsRange rng) (k : List String)
    (d : List Record) (n : String) (db : Db) (t : Table) (ht : db.tables n = some t) :
    ∃ rows : List (List (String × Literal)),
      (SaveSqlite rng k d n db).2.tables n = some { t with rows := t.rows ++ rows } ∧
      (SaveSqlite rng k d n db).2.accepts = db.accepts ∧
      ((SaveSqlite rng k d n db).1 = Except.ok () →
        List.Forall₂ (fun e row => List.Perm row (rowOf e)) d rows) := by
  obtain ⟨hfind, hname⟩ := (tables_eq_some db n t).mp ht
  obtain ⟨rows, hrows, hacc, hok⟩ := insertLoop_rows rng hrng n d 0 db t hfind
  have hsave : SaveSqlite rng k d n db = insertLoop rng 0 d n db := by
    simp [SaveSqlite, tableExists_of_tables db n t ht]
  rw [hsave]
  exact ⟨rows, tables_of_find _ _ _ hrows hname, hacc, hok⟩

/-- The create path, when the call ends normally: the batch is not empty and the table,
created under the name given, holds one row per record of the batch. -/
theorem SaveSqlite_fresh_rows (rng : MapRange) (hrng : IsRange rng) (k : List String)
    (d : List Record) (n : String) (db : Db) (ht : db.tables n = none)
    (hok : (SaveSqlite rng k d n db).1 = Except.ok ()) :
    ∃ (e : Record) (rest : List Record) (rows : List (List (String × Literal))),
      d = e :: rest ∧
      (SaveSqlite rng k d n db).2.tables n =
        some { name := n, cols := colsOf (rng 0 e), rows := rows } ∧
      (SaveSqlite rng k d n db).2.accepts = db.accepts ∧
      List.Forall₂ (fun e' row => List.Perm row (rowOf e')) d rows := by
  have hex := tableExists_of_none db n ht
  cases d with
  | nil => simp [SaveSqlite, hex, createTable, createTableScript] at hok
  | cons e rest =>
    rcases hc : createTable rng 0 db k (e :: rest) n with ⟨r, db1⟩
    cases r with
    | error err => simp [SaveSqlite, hex, hc] at hok
    | ok u =>
      obtain ⟨_, hfind1, hacc1⟩ := createTable_ok rng 0 db db1 k e rest n hc
      have hsave : SaveSqlite rng k (e :: rest) n db = insertLoop rng 1 (e :: rest) n db1 := by
        simp [SaveSqlite, hex, hc]
      rw [hsave] at hok ⊢
      obtain ⟨rows, hrows, hacc, hall⟩ := insertLoop_rows rng hrng n (e :: rest) 1 db1 _ hfind1
      refine ⟨e, rest, rows, rfl, ?_, by rw [hacc, hacc1], hall hok⟩
      exact tables_of_find _ n { name := n, cols := colsOf (rng 0 e), rows := rows }
        (by simpa using hrows) rfl

/-- The existing-table path ends normally on a batch of records that are well formed for
the table and writable, when the engine accepts every insert statement of the batch. -/
theorem SaveSqlite_existing_ok (rng : MapRange) (hrng : IsRange rng) (k : List String)
    (d : List Record) (n : String) (db : Db) (t : Table) (ht : db.tables n = some t)
    (hcols : t.cols ≠ []) (hwf : ∀ e ∈ d, WellFormed t.cols e ∧ Writable e)
    (hacc : ∀ (j : Nat) (e : Record), e ∈ d → db.accepts (insertStmt rng j e n) = true) :
    (SaveSqlite rng k d n db).1 = Except.ok () := by
  obtain ⟨hfind, _⟩ := (tables_eq_some db n t).mp ht
  have hsave : SaveSqlite rng k d n db = insertLoop rng 0 d n db := by
    simp [SaveSqlite, tableExists_of_tables db n t ht]
  rw [hsave]
  exact insertLoop_ok rng hrng n d db.accepts hacc t.cols hcols hwf 0 db t hfind rfl rfl

/-- The create path ends normally on a non-empty batch of records that are well formed
for one list of columns, with names distinct without case, and writable, when no table
has the name (without case) and the engine accepts the statements of the call. -/
theorem SaveSqlite_fresh_ok (rng : MapRange) (hrng : IsRange rng) (k : List String)
    (e : Record) (rest : List Record) (n : String) (db : Db) (ht : db.find n = none)
    (cols : List (String × SqlType)) (hcols : cols ≠ [])
    (hdup : (cols.map (fun c => foldName c.1)).Nodup)
    (hwf : ∀ e' ∈ e :: rest, WellFormed cols e' ∧ Writable e')
    (hc : db.accepts (Stmt.createTable n (colsOf (rng 0 e))) = true)
    (hd : db.accepts (Stmt.deleteFrom n) = true)
    (hacc : ∀ (j : Nat) (e' : Record), e' ∈ e :: rest →
      db.accepts (insertStmt rng j e' n) = true) :
    (SaveSqlite rng k (e :: rest) n db).1 = Except.ok () := by
  have he := (hwf e (List.mem_cons_self _ _)).1
  have hperm := hrng 0 e
  have htyped : ∀ kv ∈ rng 0 e, kv.2.typed = true := typed_of_perm hperm he.2
  have hnames : (colsOf (rng 0 e)).map Prod.fst = (rng 0 e).map Prod.fst := by
    simp [colsOf, List.map_map, Function.comp_def]
  have hkeys : List.Perm ((colsOf (rng 0 e)).map Prod.fst) (cols.map Prod.fst) := by
    rw [hnames]
    exact (hperm.map Prod.fst).trans he.1
  have hne : colsOf (rng 0 e) ≠ [] := by
    intro h0
    rw [h0] at hkeys
    exact hcols (List.map_eq_nil_iff.mp hkeys.symm.eq_nil)
  have hfold : List.Perm ((colsOf (rng 0 e)).map (fun c => foldName c.1))
      (cols.map (fun c => foldName c.1)) := by
    have := hkeys.map foldName
    simpa [List.map_map, Function.comp_def] using this
  have hdup' : ((colsOf (rng 0 e)).map (fun c => foldName c.1)).Nodup :=
    hfold.nodup_iff.mpr hdup
  have hwf' : ∀ e' ∈ e :: rest, WellFormed (colsOf (rng 0 e)) e' ∧ Writable e' :=
    fun e' he' => ⟨⟨(hwf e' he').1.1.trans hkeys.symm, (hwf e' he').1.2⟩, (hwf e' he').2⟩
  have hnone : db.tables n = none := by
    simp [Db.tables, ht]
  have hcreate := createTable_fresh rng 0 db k e rest n ht htyped hne hdup' hc hd
  rcases hcr : createTable rng 0 db k (e :: rest) n with ⟨r, db1⟩
  rw [hcr] at hcreate
  simp only at hcreate
  subst hcreate
  obtain ⟨_, hfind1, hacc1⟩ := createTable_ok rng 0 db db1 k e rest n hcr
  have hsave : SaveSqlite rng k (e :: rest) n db = insertLoop rng 1 (e :: rest) n db1 := by
    simp [SaveSqlite, tableExists_of_none db n hnone, hcr]
  rw [hsave]
  exact insertLoop_ok rng hrng n (e :: rest) db.accepts hacc (colsOf (rng 0 e)) hne hwf' 1 db1 _
    hfind1 rfl hacc1

/-- Row counts of the claim C3 where the code meets them, for batches of `N` records that
are well formed and writable and whose statements the engine accepts: saving into an
existing table with `M` rows leaves `M + N` rows, and saving a non-empty batch into a
store without a table of that name leaves `N` rows. -/
theorem SaveSqlite_rowCount (rng : MapRange) (hrng : IsRange rng) (k : List String)
    (d : List Record) (n : String) (db : Db) (cols : List (String × SqlType))
    (hcols : cols ≠ []) (hdup : (cols.map (fun c => foldName c.1)).Nodup)
    (hwf : ∀ e ∈ d, WellFormed cols e ∧ Writable e)
    (hacc : ∀ (j : Nat) (e : Record), e ∈ d → db.accepts (insertStmt rng j e n) = true) :
    (∀ t, db.tables n = some t → t.cols = cols →
      (SaveSqlite rng k d n db).1 = Except.ok () ∧
      rowCount (SaveSqlite rng k d n db).2 n = some (t.rows.length + d.length)) ∧
    (∀ e rest, d = e :: rest → db.find n = none →
      db.accepts (Stmt.createTable n (colsOf (rng 0 e))) = true →
      db.accepts (Stmt.deleteFrom n) = true →
      (SaveSqlite rng k d n db).1 = Except.ok () ∧
      rowCount (SaveSqlite rng k d n db).2 n = some d.length) := by
  constructor
  · intro t ht hc
    subst hc
    have hok := SaveSqlite_existing_ok rng hrng k d n db t ht hcols hwf hacc
    obtain ⟨rows, htab, _, hrows⟩ := SaveSqlite_existing_rows rng hrng k d n db t ht
    have hl := (hrows hok).length_eq
    have hfind := ((tables_eq_some _ _ _).mp htab).1
    refine ⟨hok, ?_⟩
    simp [rowCount, hfind, hl]
  · intro e rest hd hfind hc hdel
    subst hd
    have hok := SaveSqlite_fresh_ok rng hrng k e rest n db hfind cols hcols hdup hwf hc hdel hacc
    have hnone : db.tables n = none := by simp [Db.tables, hfind]
    obtain ⟨e', rest', rows, _, htab, _, hrows⟩ :=
      SaveSqlite_fresh_rows rng hrng k (e :: rest) n db hnone hok
    have hl := hrows.length_eq
    have hfind' := ((tables_eq_some _ _ _).mp htab).1
    refine ⟨hok, ?_⟩
    simp only [rowCount, hfind', Option.map_some']
    rw [← hl]

theorem createTable_ne_indexOutOfRange (rng : MapRange) (i : Nat) (db : Db) (k : List String)
    (e : Record) (rest : List Record) (n : String) :
    (createTable rng i db k (e :: rest) n).1 ≠ Except.error Fatal.indexOutOfRange := by
  intro h
  rcases typed_or_untyped (rng i e) with ht | hu
  · have hscript : createTableScript rng i (e :: rest) n =
        Except.ok [Stmt.createTable n (colsOf (rng i e)), Stmt.deleteFrom n] := by
      simp [createTableScript, inferCols_typed _ _ ht]
    rcases hex : db.Exec [Stmt.createTable n (colsOf (rng i e)), Stmt.deleteFrom n] with
      ⟨ok, db1⟩
    cases ok <;> simp [createTable, hscript, hex] at h
  · have hscript : createTableScript rng i (e :: rest) n = Except.error Fatal.unknownType := by
      simp [createTableScript, inferCols_untyped _ _ hu]
    simp [createTable, hscript] at h

theorem insertLoop_ne_indexOutOfRange (rng : MapRange) (i : Nat) (d : List Record)
    (n : String) (db : Db) :
    (insertLoop rng i d n db).1 ≠ Except.error Fatal.indexOutOfRange := by
  intro h
  obtain ⟨stmt, hstmt⟩ := insertLoop_error rng n d i db _ h
  cases hstmt

end scraperwiki
namespace scraper

open scraperwiki

/-! ## Pagination (`index`) -/

/-- C1. For every extractor (a function of the address, hence of the page number) and every
`N ≥ 1` such that pages `1 .. N-1` yield a non-empty list and page `N` yields the empty list,
`index` returns as soon as it has `N` units of fuel: the extractor was called exactly on the
addresses of pages `1, 2, ..., N`, in that order, and the result is the concatenation of the
lists of pages `1 .. N-1`, in page order and then in-page order. -/
theorem index_pagination (ex : String → List animal) (N : Nat) (hN : 1 ≤ N)
    (hne : ∀ k, 1 ≤ k → k < N → ex (pageURL k) ≠ []) (hempty : ex (pageURL N) = [])
    (fuel : Nat) (hfuel : N ≤ fuel) :
    index (fun u => Except.ok (ex u)) fuel =
      ((List.range N).map (fun i => pageURL (i + 1)),
       Outcome.done ((List.range (N - 1)).flatMap (fun i => ex (pageURL (i + 1))))) := by
  obtain ⟨m, rfl⟩ : ∃ m, N = m + 1 := ⟨N - 1, by omega⟩
  have hne' : ∀ j, j < m → ex (pageURL (1 + j)) ≠ [] :=
    fun j hj => hne (1 + j) (by omega) (by omega)
  have hempty' : ex (pageURL (1 + m)) = [] := by rwa [Nat.add_comm 1 m]
  have key := indexLoop_spec ex m 1 fuel [] [] hne' hempty' hfuel
  simp only [index, key, List.nil_append, Nat.add_sub_cancel]
  simp [Nat.add_comm 1]

/-- C1 on the listing pages of `demoSite`, where page 3 is the first empty one. -/
theorem index_pagination_witness :
    index (fun u => Except.ok (demoPages u)) 5 =
      ((List.range 3).map (fun i => pageURL (i + 1)),
       Outcome.done ((List.range (3 - 1)).flatMap (fun i => demoPages (pageURL (i + 1))))) :=
  index_pagination demoPages 3 (by decide)
    (by
      intro k h1 h3
      obtain rfl | rfl : k = 1 ∨ k = 2 := by omega
      · decide
      · decide)
    (by decide) 5 (by decide)

/-! ## Listing-page extraction (`scrapeSearchResultsPage`) -/

/-- C7. On a page that was fetched and parsed, `scrapeSearchResultsPage` returns one record
per card, in document order.  The record of a card has the empty `Breed`; its `Name` is the
trimmed heading text (the empty string without a heading); its `URL` is the `href` of the
anchor as written (the empty string without an anchor or without the attribute).  Trimming
removes a run of white space at each end and leaves no white space there.  The card with
heading `"  Rex  "` and `href` `"https://site/x"` gives `{"https://site/x", "Rex", ""}`. -/
theorem scrapeSearchResultsPage_fields :
    (∀ (http : Http) (url : String) (res : Response) (doc : Document),
      http url = some res → res.StatusCode = 200 → res.Body = some doc →
      scrapeSearchResultsPage http url = Except.ok (doc.cards.map cardAnimal)) ∧
    (∀ s : Card, (cardAnimal s).Breed = "" ∧
      (s.headerH3 = [] → (cardAnimal s).Name = "") ∧
      (∀ t, s.headerH3 = [t] → (cardAnimal s).Name = TrimSpace t) ∧
      (s.anchors = [] → (cardAnimal s).URL = "") ∧
      (∀ rest, s.anchors = none :: rest → (cardAnimal s).URL = "") ∧
      (∀ h rest, s.anchors = some h :: rest → (cardAnimal s).URL = h)) ∧
    (∀ t : String, ∃ pre post : List Char, t.data = pre ++ (TrimSpace t).data ++ post ∧
      (∀ c ∈ pre, isSpace c = true) ∧ (∀ c ∈ post, isSpace c = true) ∧
      (∀ c, (TrimSpace t).data.head? = some c → isSpace c = false) ∧
      (∀ c, (TrimSpace t).data.getLast? = some c → isSpace c = false)) ∧
    scrapeSearchResultsPage
        (fun _ => some ⟨200, some ⟨[⟨["  Rex  "], [some "https://site/x"]⟩], []⟩⟩) "u" =
      Except.ok [⟨"https://site/x", "Rex", ""⟩] := by
  refine ⟨?_, ?_, TrimSpace_spec, ?_⟩
  · intro http url res doc hget hstatus hbody
    simp [scrapeSearchResultsPage, hget, hstatus, hbody, extractAnimals_eq_map]
  · intro s
    refine ⟨rfl, ?_, ?_, ?_, ?_, ?_⟩
    · intro h
      simp only [cardAnimal, h, Text_nil]
      decide
    · intro t h
      simp only [cardAnimal, h, Text_singleton]
    · intro h
      simp only [cardAnimal, h, Attr]
    · intro rest h
      simp only [cardAnimal, h, Attr, Option.getD_none]
    · intro href rest h
      simp only [cardAnimal, h, Attr, Option.getD_some]
  · decide

/-- C7 on the first listing page of `demoSite`. -/
theorem scrapeSearchResultsPage_fields_witness :
    scrapeSearchResultsPage demoSite (pageURL 1) =
      Except.ok ([⟨["  Rex  "], [some "https://site/x"]⟩, ⟨["Bo"], [some "https://site/y"]⟩].map
        cardAnimal) :=
  scrapeSearchResultsPage_fields.1 demoSite (pageURL 1)
    ⟨200, some ⟨[⟨["  Rex  "], [some "https://site/x"]⟩, ⟨["Bo"], [some "https://site/y"]⟩], []⟩⟩
    ⟨[⟨["  Rex  "], [some "https://site/x"]⟩, ⟨["Bo"], [some "https://site/y"]⟩], []⟩
    (by decide) (by decide) (by decide)

/-! ## Detail pages (`scrape`) and the enrichment loop of `main` -/

/-- C8. On a detail page that was fetched and parsed, `scrape` does not fail and leaves
`URL` and `Name` as they were; `Breed` becomes the trimmed text of the first element
matching the breed heading, and the empty string when no element matches. -/
theorem scrape_breed (http : Http) (a : animal) (res : Response) (doc : Document)
    (hget : http a.URL = some res) (hstatus : res.StatusCode = 200)
    (hbody : res.Body = some doc) :
    ∃ b, scrape http a = Except.ok b ∧ b.URL = a.URL ∧ b.Name = a.Name ∧
      (doc.breedH3 = [] → b.Breed = "") ∧
      (∀ t rest, doc.breedH3 = t :: rest → b.Breed = TrimSpace t) := by
  refine ⟨setBreed doc a, scrape_of_response http a res doc hget hstatus hbody, rfl, rfl, ?_, ?_⟩
  · intro h
    simp only [setBreed, h, First, List.take_nil, Text_nil]
    decide
  · intro t rest h
    simp only [setBreed, h, First, List.take_succ_cons, List.take_zero, Text_singleton]

/-- C8 on the detail page of the first animal of `demoSite`, which has two matching
elements. -/
theorem scrape_breed_witness :
    ∃ b, scrape demoSite ⟨"https://site/x", "Rex", ""⟩ = Except.ok b ∧
      b.URL = "https://site/x" ∧ b.Name = "Rex" ∧
      (([" Kelpie ", "Adult"] : List String) = [] → b.Breed = "") ∧
      (∀ t rest, ([" Kelpie ", "Adult"] : List String) = t :: rest → b.Breed = TrimSpace t) :=
  scrape_breed demoSite ⟨"https://site/x", "Rex", ""⟩ ⟨200, some ⟨[], [" Kelpie ", "Adult"]⟩⟩
    ⟨[], [" Kelpie ", "Adult"]⟩ (by decide) (by decide) (by decide)

/-- C5. When the detail fetch succeeds for every record and shows the breed `detail u` at
address `u`, the enrichment loop of `main` completes, requests the addresses of the records
in order, and returns a slice of the same length in which the record at every index has
the `URL` and `Name` of the input record at that index and the `Breed` the detail page at
its `URL` gave. -/
theorem enrich_frame (http : Http) (detail : String → String) (animals : List animal)
    (h : ∀ a ∈ animals, ∃ res doc, http a.URL = some res ∧ res.StatusCode = 200 ∧
      res.Body = some doc ∧ TrimSpace (Text (First doc.breedH3)) = detail a.URL) :
    ∃ out, enrich http animals = (animals.map (fun a => a.URL), Except.ok out) ∧
      out.length = animals.length ∧
      ∀ (i : Nat) (a : animal), animals[i]? = some a →
        ∃ b, out[i]? = some b ∧ b.URL = a.URL ∧ b.Name = a.Name ∧ b.Breed = detail a.URL := by
  refine ⟨animals.map (fun a => { a with Breed := detail a.URL }), ?_, by simp, ?_⟩
  · simpa [enrich] using enrichLoop_spec http detail animals [] [] h
  · intro i a hi
    exact ⟨{ a with Breed := detail a.URL }, by simp [List.getElem?_map, hi], rfl, rfl, rfl⟩

/-- C5 on the three animals listed by `demoSite`. -/
theorem enrich_frame_witness :
    ∃ out, enrich demoSite [⟨"https://site/x", "Rex", ""⟩, ⟨"https://site/y", "Bo", ""⟩,
        ⟨"https://site/z", "Kim", ""⟩] =
        (([⟨"https://site/x", "Rex", ""⟩, ⟨"https://site/y", "Bo", ""⟩,
          ⟨"https://site/z", "Kim", ""⟩] : List animal).map (fun a => a.URL), Except.ok out) ∧
      out.length = ([⟨"https://site/x", "Rex", ""⟩, ⟨"https://site/y", "Bo", ""⟩,
          ⟨"https://site/z", "Kim", ""⟩] : List animal).length ∧
      ∀ (i : Nat) (a : animal), ([⟨"https://site/x", "Rex", ""⟩, ⟨"https://site/y", "Bo", ""⟩,
          ⟨"https://site/z", "Kim", ""⟩] : List animal)[i]? = some a →
        ∃ b, out[i]? = some b ∧ b.URL = a.URL ∧ b.Name = a.Name ∧ b.Breed = demoBreed a.URL :=
  enrich_frame demoSite demoBreed _ (by
    intro a ha
    simp only [List.mem_cons, List.mem_singleton, List.not_mem_nil, or_false] at ha
    rcases ha with rfl | rfl | rfl
    · exact ⟨_, _, rfl, rfl, rfl, by decide⟩
    · exact ⟨_, _, rfl, rfl, rfl, by decide⟩
    · exact ⟨_, _, rfl, rfl, rfl, by decide⟩)

/-! ## Fatal propagation in `main` -/

/-- C6. If some request made during a run of `main` (for a listing page or for a detail
page) is answered with a status outside 200..299, the run ends in a fatal error, `SaveSqlite`
is not called and the database file is as it was before the run. -/
theorem main_fatal_propagation (http : Http) (rng : MapRange) (fuel : Nat) (db : Db)
    (u : String) (res : Response) (hu : u ∈ (main http rng fuel db).fetched)
    (hres : http u = some res) (hbad : ¬ (200 ≤ res.StatusCode ∧ res.StatusCode < 300)) :
    (∃ e, (main http rng fuel db).outcome = Outcome.fatal e) ∧
      (main http rng fuel db).saved = none ∧ (main http rng fuel db).db = db := by
  have hnot : ¬ Fetched200 http u := by
    rintro ⟨r, hr, hs⟩
    rw [hres] at hr
    cases hr
    omega
  have hidx := indexLoop_fetched http fuel 1 [] [] (by simp)
  rcases hi : index (scrapeSearchResultsPage http) fuel with ⟨f1, o⟩
  rw [index] at hi
  rw [hi] at hidx
  cases o with
  | fatal e => simp [main, index, hi]
  | running =>
    simp only [main, index, hi] at hu
    exact absurd (hidx (by simp) u hu) hnot
  | done animals =>
    rcases he : enrich http animals with ⟨f2, r⟩
    cases r with
    | error e => simp [main, index, hi, he]
    | ok out =>
      have hen := enrichLoop_fetched http animals 0 animals [] out (by simp)
      rw [enrich] at he
      rw [he] at hen
      have hmem : u ∈ f1 ++ f2 := by
        simp only [main, index, hi, enrich, he] at hu
        split at hu <;> exact hu
      rcases List.mem_append.mp hmem with h1 | h2
      · exact absurd (hidx (by simp) u h1) hnot
      · exact absurd (hen rfl u h2) hnot

end scraper

namespace scraperwiki

open scraper (Fatal animal animalsToData structsMap animalsToData_eq_map)

/-! ## Schema inference (`createTable`) -/

/-- C3, at the input where the code departs from it: an empty batch saved into a store
without the table.  `SaveSqlite` ends in the index-out-of-range panic of `createTable`, the
store is unchanged, and the table does not exist, so that counting its rows fails instead
of giving 0.  (`SaveSqlite_rowCount` gives the row counts `M + N` and `N` of the claim for
an existing table and for a non-empty batch.) -/
theorem SaveSqlite_empty_batch_count :
    (SaveSqlite listedOrder ["URL"] [] "data" emptyDb).1 = Except.error Fatal.indexOutOfRange ∧
    (SaveSqlite listedOrder ["URL"] [] "data" emptyDb).2.journal = [] ∧
    rowCount (SaveSqlite listedOrder ["URL"] [] "data" emptyDb).2 "data" = none ∧
    rowCount (SaveSqlite listedOrder ["URL"] [] "data" emptyDb).2 "data" ≠
      some ([] : List Record).length := by
  decide

/-- A record whose name holds double quotes is well formed and is rejected all the same:
on a store without the table the call creates the table, ends in `log.Fatalf` at the
insert and leaves no row. -/
theorem SaveSqlite_quoted_record :
    (SaveSqlite listedOrder ["URL"] [quotedRecord] "data" emptyDb).1 =
      Except.error (Fatal.execError [insertStmt listedOrder 1 quotedRecord "data"]) ∧
    rowCount (SaveSqlite listedOrder ["URL"] [quotedRecord] "data" emptyDb).2 "data" = some 0 := by
  decide

/-! ## Insert statements (`SaveSqlite`) -/

/-- C9, at an input where the code departs from it: for a record with a `bool` value the
insert statement names three columns and carries two values, and the store rejects it. -/
theorem insertStmt_bool_value :
    insertStmt listedOrder 0 boolRecord "data" =
      Stmt.insertInto "data" ["URL", "Name", "Breed"]
        [Literal.q "https://site/x", Literal.q "Rex"] ∧
    (SaveSqlite listedOrder ["URL"] [boolRecord] "data" demoDb).1 =
      Except.error (Fatal.execError [Stmt.insertInto "data" ["URL", "Name", "Breed"]
        [Literal.q "https://site/x", Literal.q "Rex"]]) := by
  decide

end scraperwiki

namespace scraper

open scraperwiki

/-! ## The empty batch -/

set_option maxRecDepth 8000 in
/-- C6 on `brokenSite`, where the detail page of the second animal answers 404 after three
listing pages and one detail page were fetched. -/
theorem main_fatal_propagation_witness :
    (∃ e, (main brokenSite listedOrder 5 emptyDb).outcome = Outcome.fatal e) ∧
      (main brokenSite listedOrder 5 emptyDb).saved = none ∧
      (main brokenSite listedOrder 5 emptyDb).db = emptyDb :=
  main_fatal_propagation brokenSite listedOrder 5 emptyDb "https://site/y" ⟨404, none⟩
    (by decide) (by decide) (by decide)

end scraper
